import Mathlib

/-!
# Verification of the hyper method-override middleware

A shallow embedding of `src/lib.rs` of `lpil/hyper-method-override-middleware`.
The middleware wraps an inner service; on each call it may replace a POST
request's method with the method named by the `_method` query parameter
(accepted values: `PUT`, `PATCH`, `DELETE`), then delegates to the inner
service.

Byte strings are modelled as `List Nat` (each entry a byte value).  The
query-string parsing performed by `url::form_urlencoded::parse` is embedded
at the byte level: the input is split on `&` (byte 38), empty sequences are
skipped, each sequence is split at its first `=` (byte 61, the value being
empty when no `=` is present), and name and value are decoded by replacing
`+` (byte 43) with space (byte 32) and then percent-decoding.  The Rust
code compares the resulting lossily-UTF-8-decoded strings against the pure
ASCII constants `"_method"`, `"DELETE"`, `"PATCH"`, `"PUT"`; a lossy UTF-8
decoding equals a pure ASCII string exactly when the underlying bytes are
that string's ASCII bytes (invalid UTF-8 introduces U+FFFD, which no ASCII
string contains), so those comparisons are embedded as byte-list equality
against the constants' ASCII bytes.
-/

/-- The ASCII bytes of a string constant (used only on ASCII literals). -/
def asciiBytes (s : String) : List Nat :=
  s.data.map (fun c => c.toNat)

/-- HTTP methods, as in `hyper::Method`: the nine standard verbs plus
extension methods carrying their name. -/
inductive Method : Type where
  | GET
  | POST
  | PUT
  | DELETE
  | HEAD
  | OPTIONS
  | CONNECT
  | PATCH
  | TRACE
  | extensionMethod (name : List Nat)
deriving DecidableEq, Repr

/-- An HTTP request, as read and written by the middleware: the method, the
URI's path and optional query component (raw bytes, without the `?`), the
headers, and the body.  `hyper::Request` carries more fields (version,
extensions); the middleware treats them like `headers` and `body`, reading
and writing none of them, so `headers` and `body` stand in for everything
other than the method and the URI. -/
structure Request (Body : Type) : Type where
  method : Method
  path : List Nat
  query : Option (List Nat)
  headers : List (List Nat × List Nat)
  body : Body
deriving Repr

/-- Numeric value of an ASCII hex digit, `none` for any other byte
(percent-decoding accepts both cases, as `percent_encoding` does). -/
def hexVal (b : Nat) : Option Nat :=
  if 48 ≤ b ∧ b ≤ 57 then some (b - 48)
  else if 65 ≤ b ∧ b ≤ 70 then some (b - 65 + 10)
  else if 97 ≤ b ∧ b ≤ 102 then some (b - 97 + 10)
  else none

/-- `+` (byte 43) becomes space (byte 32), as `form_urlencoded` does before
percent-decoding. -/
def replacePlus (l : List Nat) : List Nat :=
  l.map (fun b => if b = 43 then 32 else b)

/-- Percent-decoding as in the `percent_encoding` crate: `%XY` with two hex
digits decodes to one byte; a `%` not followed by two hex digits is passed
through literally and the following bytes are processed normally. -/
def percentDecode : List Nat → List Nat
  | [] => []
  | 37 :: h :: l :: rest =>
    match hexVal h, hexVal l with
    | some hi, some lo => (hi * 16 + lo) :: percentDecode rest
    | _, _ => 37 :: percentDecode (h :: l :: rest)
  | b :: rest => b :: percentDecode rest

/-- The decoding `form_urlencoded` applies to each name and each value:
`+`-to-space translation followed by percent-decoding. -/
def decodeBytes (l : List Nat) : List Nat :=
  percentDecode (replacePlus l)

/-- Split a sequence at its first `=` (byte 61) into name and value; when no
`=` is present the whole sequence is the name and the value is empty, as
`splitn(2, b'=')` with `unwrap_or` of the empty slice behaves. -/
def splitEq : List Nat → List Nat × List Nat
  | [] => ([], [])
  | 61 :: rest => ([], rest)
  | b :: rest =>
    let p := splitEq rest
    (b :: p.1, p.2)

/-- `url::form_urlencoded::parse` on a byte string: split on `&` (byte 38),
skip empty sequences, split each remaining sequence at its first `=`, and
decode name and value. -/
def formUrlencodedParse (input : List Nat) : List (List Nat × List Nat) :=
  ((input.splitOn 38).filter (fun seq => seq ≠ [])).map
    (fun seq => (decodeBytes (splitEq seq).1, decodeBytes (splitEq seq).2))

/-- The match table of `override_method` (src/lib.rs lines 59–64): the
decoded value of `_method` is mapped to a `Method`, any unrecognized value
yielding `none`.  Comparisons are byte-exact, hence case-sensitive. -/
def method_table (v : List Nat) : Option Method :=
  if v = asciiBytes "DELETE" then some Method.DELETE
  else if v = asciiBytes "PATCH" then some Method.PATCH
  else if v = asciiBytes "PUT" then some Method.PUT
  else none

/-- `override_method` (src/lib.rs lines 52–65): `none` unless the request's
method is POST; otherwise parse the query string (empty when the URI has no
query component), find the first pair whose name is `_method`, and map its
value through the table. -/
def override_method {Body : Type} (req : Request Body) : Option Method :=
  if req.method ≠ Method.POST then none
  else
    ((formUrlencodedParse (req.query.getD [])).find?
        (fun p => p.1 = asciiBytes "_method")).bind
      (fun p => method_table p.2)

/-- The request-rewriting step of `MethodOverrideMiddleware::call`
(src/lib.rs lines 45–47): when `override_method` yields a method, replace
the request's method with it; otherwise leave the request untouched. -/
def applyOverride {Body : Type} (req : Request Body) : Request Body :=
  match override_method req with
  | some m => { req with method := m }
  | none => req

/-- The middleware struct: it owns the wrapped inner service. -/
structure MethodOverrideMiddleware (S : Type) : Type where
  inner_service : S

/-- `MethodOverrideMiddleware::call` (src/lib.rs lines 44–49), with the
inner service modelled as a function from requests to a response or an
error: rewrite the request, then delegate to the inner service. -/
def MethodOverrideMiddleware.call {Body Resp Err : Type}
    (self : MethodOverrideMiddleware (Request Body → Except Err Resp))
    (req : Request Body) : Except Err Resp :=
  self.inner_service (applyOverride req)

/-- The method the wrapped handler observes for a given incoming request. -/
def observedMethod {Body : Type} (req : Request Body) : Method :=
  (applyOverride req).method

/-- A concrete request with a given method and raw query string, used as the
concrete input of witnesses. -/
def mkReq (m : Method) (q : String) : Request Unit :=
  { method := m
    path := asciiBytes "/item/1"
    query := some (asciiBytes q)
    headers := []
    body := () }

/-! ## Helper lemmas -/

/-- Every method the table produces is PUT, PATCH, or DELETE. -/
lemma method_table_valid (v : List Nat) (m : Method)
    (h : method_table v = some m) :
    m = Method.PUT ∨ m = Method.PATCH ∨ m = Method.DELETE := by
  unfold method_table at h
  split_ifs at h <;> simp_all

/-- Every method `override_method` produces is PUT, PATCH, or DELETE. -/
lemma override_method_valid {Body : Type} (req : Request Body) (m : Method)
    (h : override_method req = some m) :
    m = Method.PUT ∨ m = Method.PATCH ∨ m = Method.DELETE := by
  unfold override_method at h
  split_ifs at h with hp
  obtain ⟨p, -, hpm⟩ := Option.bind_eq_some.mp h
  exact method_table_valid p.2 m hpm

/-- `override_method` produces a method only for POST requests. -/
lemma override_method_post {Body : Type} (req : Request Body) (m : Method)
    (h : override_method req = some m) : req.method = Method.POST := by
  unfold override_method at h
  split_ifs at h with hp
  exact not_not.mp hp

/-- `find?` over a list whose first satisfying element is `x` returns `x`. -/
lemma find?_first {α : Type} (p : α → Bool) (l₁ l₂ : List α) (x : α)
    (h₁ : ∀ a ∈ l₁, ¬ p a) (hx : p x) :
    (l₁ ++ x :: l₂).find? p = some x := by
  induction l₁ with
  | nil => simpa using List.find?_cons_of_pos l₂ hx
  | cons a as ih =>
    rw [List.cons_append, List.find?_cons_of_neg _ (h₁ a (by simp))]
    exact ih fun b hb => h₁ b (by simp [hb])

/-- On a POST request whose parsed query has its first `_method` pair
carrying value `v`, `override_method` is the table applied to `v`. -/
lemma override_method_found {Body : Type} (req : Request Body)
    (l₁ l₂ : List (List Nat × List Nat)) (v : List Nat)
    (hm : req.method = Method.POST)
    (hq : formUrlencodedParse (req.query.getD []) =
      l₁ ++ (asciiBytes "_method", v) :: l₂)
    (hl : ∀ p ∈ l₁, p.1 ≠ asciiBytes "_method") :
    override_method req = method_table v := by
  unfold override_method
  rw [if_neg (by simp [hm]), hq,
    find?_first _ l₁ l₂ _ (fun a ha => by simpa using hl a ha) (by simp)]
  rfl

/-! ## Claim theorems -/

/-- C1: For every request whose method is not POST, the method observed by
the wrapped handler equals the original method, regardless of the query
string's content. -/
theorem non_post_method_unchanged {Body : Type} (req : Request Body)
    (h : req.method ≠ Method.POST) :
    observedMethod req = req.method := by
  have h0 : override_method req = none := by
    unfold override_method
    rw [if_pos h]
  unfold observedMethod applyOverride
  rw [h0]

/-- C1 witness: a GET request with query `_method=PATCH` stays GET. -/
theorem non_post_method_unchanged_witness :
    (mkReq Method.GET "_method=PATCH").method ≠ Method.POST ∧
      observedMethod (mkReq Method.GET "_method=PATCH") =
        (mkReq Method.GET "_method=PATCH").method :=
  ⟨by decide, non_post_method_unchanged _ (by decide)⟩

/-- C2: For every POST request whose parsed query string contains a
`_method` pair whose first occurrence carries value exactly `PUT`, `PATCH`,
or `DELETE`, the wrapped handler observes PUT, PATCH, or DELETE
respectively, whatever other pairs surround it. -/
theorem post_valid_override_observed {Body : Type} (req : Request Body)
    (l₁ l₂ : List (List Nat × List Nat)) (v : List Nat)
    (hm : req.method = Method.POST)
    (hq : formUrlencodedParse (req.query.getD []) =
      l₁ ++ (asciiBytes "_method", v) :: l₂)
    (hl : ∀ p ∈ l₁, p.1 ≠ asciiBytes "_method") :
    (v = asciiBytes "PUT" → observedMethod req = Method.PUT) ∧
      (v = asciiBytes "PATCH" → observedMethod req = Method.PATCH) ∧
      (v = asciiBytes "DELETE" → observedMethod req = Method.DELETE) := by
  have h := override_method_found req l₁ l₂ v hm hq hl
  refine ⟨?_, ?_, ?_⟩ <;> intro hv <;> subst hv <;>
    unfold observedMethod applyOverride <;> rw [h] <;> rfl

/-- C2 witness: a POST with query `a=1&b=2&_method=PUT` is observed as
PUT. -/
theorem post_valid_override_observed_witness :
    (mkReq Method.POST "a=1&b=2&_method=PUT").method = Method.POST ∧
      observedMethod (mkReq Method.POST "a=1&b=2&_method=PUT") =
        Method.PUT :=
  ⟨by decide,
    (post_valid_override_observed (mkReq Method.POST "a=1&b=2&_method=PUT")
        [(asciiBytes "a", asciiBytes "1"), (asciiBytes "b", asciiBytes "2")]
        [] (asciiBytes "PUT") (by decide) (by decide) (by decide)).1 rfl⟩

/-- C3: For every POST request in which no `_method` pair of the parsed
query carries a value in {PUT, PATCH, DELETE} (in particular when the
parameter is absent), the wrapped handler observes POST unchanged. -/
theorem post_no_valid_override_stays_post {Body : Type} (req : Request Body)
    (hm : req.method = Method.POST)
    (hv : ∀ p ∈ formUrlencodedParse (req.query.getD []),
      p.1 = asciiBytes "_method" →
        p.2 ≠ asciiBytes "PUT" ∧ p.2 ≠ asciiBytes "PATCH" ∧
          p.2 ≠ asciiBytes "DELETE") :
    observedMethod req = Method.POST := by
  have h0 : override_method req = none := by
    unfold override_method
    rw [if_neg (by simp [hm])]
    cases hf : (formUrlencodedParse (req.query.getD [])).find?
        (fun p => p.1 = asciiBytes "_method") with
    | none => rfl
    | some p =>
      have hkey : p.1 = asciiBytes "_method" := by
        have hp := List.find?_some hf
        simpa using hp
      obtain ⟨h1, h2, h3⟩ := hv p (List.mem_of_find?_eq_some hf) hkey
      simp [method_table, h1, h2, h3]
  unfold observedMethod applyOverride
  rw [h0, hm]

/-- C3 witness: a POST with query `a=1&_method=GET` is observed as POST. -/
theorem post_no_valid_override_stays_post_witness :
    (mkReq Method.POST "a=1&_method=GET").method = Method.POST ∧
      observedMethod (mkReq Method.POST "a=1&_method=GET") = Method.POST :=
  ⟨by decide,
    post_no_valid_override_stays_post (mkReq Method.POST "a=1&_method=GET")
      (by decide) (by decide)⟩

/-- C4: On a POST request whose parsed query is any list in which the first
`_method` pair carries value `v`, the override decision is the table
applied to `v` alone; the pairs after it are never consulted. -/
theorem first_method_occurrence_wins {Body : Type} (req : Request Body)
    (l₁ l₂ : List (List Nat × List Nat)) (v : List Nat)
    (hm : req.method = Method.POST)
    (hq : formUrlencodedParse (req.query.getD []) =
      l₁ ++ (asciiBytes "_method", v) :: l₂)
    (hl : ∀ p ∈ l₁, p.1 ≠ asciiBytes "_method") :
    override_method req = method_table v :=
  override_method_found req l₁ l₂ v hm hq hl

/-- C4 witness: for a POST with query `_method=GET&_method=PUT` the first
occurrence (value `GET`) decides, so there is no override. -/
theorem first_method_occurrence_wins_witness :
    formUrlencodedParse
        ((mkReq Method.POST "_method=GET&_method=PUT").query.getD []) =
      [] ++ (asciiBytes "_method", asciiBytes "GET") ::
        [(asciiBytes "_method", asciiBytes "PUT")] ∧
      override_method (mkReq Method.POST "_method=GET&_method=PUT") =
        method_table (asciiBytes "GET") :=
  ⟨by decide,
    first_method_occurrence_wins (mkReq Method.POST "_method=GET&_method=PUT")
      [] [(asciiBytes "_method", asciiBytes "PUT")] (asciiBytes "GET")
      (by decide) (by decide) (by decide)⟩

/-- C5: The adapter changes at most the method field: path, query, headers
and body are always preserved, and the method either is unchanged or the
request was a POST carrying a valid override directive, which becomes the
new method. -/
theorem adapter_changes_at_most_method {Body : Type} (req : Request Body) :
    (applyOverride req).path = req.path ∧
      (applyOverride req).query = req.query ∧
      (applyOverride req).headers = req.headers ∧
      (applyOverride req).body = req.body ∧
      ((applyOverride req).method = req.method ∨
        (req.method = Method.POST ∧
          ∃ m, override_method req = some m ∧
            (m = Method.PUT ∨ m = Method.PATCH ∨ m = Method.DELETE) ∧
            (applyOverride req).method = m)) := by
  unfold applyOverride
  cases h : override_method req with
  | none => exact ⟨rfl, rfl, rfl, rfl, Or.inl rfl⟩
  | some m =>
    exact ⟨rfl, rfl, rfl, rfl,
      Or.inr ⟨override_method_post req m h,
        m, rfl, override_method_valid req m h, rfl⟩⟩

/-- C6: The rewrite step is idempotent: applying it twice equals applying
it once, for every request; in particular a second application after a
replacement is a no-op, since the rule only triggers on POST. -/
theorem applyOverride_idempotent {Body : Type} (req : Request Body) :
    applyOverride (applyOverride req) = applyOverride req := by
  cases h : override_method req with
  | none =>
    have h2 : applyOverride req = req := by
      unfold applyOverride
      rw [h]
    rw [h2]
    exact h2
  | some m =>
    have h2 : applyOverride req = { req with method := m } := by
      unfold applyOverride
      rw [h]
    have hm : m ≠ Method.POST := by
      rcases override_method_valid req m h with h' | h' | h' <;>
        subst h' <;> decide
    have h3 : override_method { req with method := m } = none := by
      unfold override_method
      rw [if_pos hm]
    rw [h2]
    unfold applyOverride
    rw [h3]

/-- C7: The override computation is total: on every request — whatever its
query component, including none at all — it yields either no override or a
valid override verb, never anything else. -/
theorem override_method_total {Body : Type} (req : Request Body) :
    override_method req = none ∨
      ∃ m, override_method req = some m ∧
        (m = Method.PUT ∨ m = Method.PATCH ∨ m = Method.DELETE) := by
  cases h : override_method req with
  | none => exact Or.inl rfl
  | some m => exact Or.inr ⟨m, rfl, override_method_valid req m h⟩

/-- C8: The adapter returns the wrapped handler's result for the possibly
rewritten request unchanged — the same `Except` value, be it a response or
an error, with no inspection, alteration, retry, or fallback. -/
theorem call_returns_inner_result {Body Resp Err : Type}
    (inner : Request Body → Except Err Resp) (req : Request Body) :
    MethodOverrideMiddleware.call ⟨inner⟩ req = inner (applyOverride req) :=
  rfl

/-- C9: `_method` and its value are compared only after URL decoding:
`%5Fmethod=PUT` (whose raw text contains no `_method`) and `_method=%50UT`
(whose raw text contains no `PUT`) both override to PUT, while
`_method=PUT+` decodes to a value with a trailing space and yields no
override. -/
theorem comparison_after_decoding :
    observedMethod (mkReq Method.POST "%5Fmethod=PUT") = Method.PUT ∧
      observedMethod (mkReq Method.POST "_method=%50UT") = Method.PUT ∧
      observedMethod (mkReq Method.POST "_method=PUT+") = Method.POST := by
  decide

/-- C10: The override decision is a function of exactly the method and the
query string: two requests agreeing on those two fields — whatever their
bodies, headers, or paths, even of different body types — get the same
override decision and the same downstream method. -/
theorem override_depends_only_on_method_and_query {B₁ B₂ : Type}
    (r₁ : Request B₁) (r₂ : Request B₂)
    (hm : r₁.method = r₂.method) (hq : r₁.query = r₂.query) :
    override_method r₁ = override_method r₂ ∧
      observedMethod r₁ = observedMethod r₂ := by
  have h1 : override_method r₁ = override_method r₂ := by
    unfold override_method
    rw [hm, hq]
  refine ⟨h1, ?_⟩
  unfold observedMethod applyOverride
  rw [h1]
  cases h : override_method r₂ with
  | none => simpa using hm
  | some m => rfl

/-- A concrete request sharing method and query with
`mkReq Method.POST "_method=PUT"` but with different path, headers, and
body (of a different type). -/
def reqOther : Request Nat :=
  { method := Method.POST
    path := asciiBytes "/elsewhere"
    query := some (asciiBytes "_method=PUT")
    headers := [(asciiBytes "x", asciiBytes "1")]
    body := 7 }

/-- C10 witness: the two concrete requests above agree on method and query
and get the same decision and downstream method. -/
theorem override_depends_only_on_method_and_query_witness :
    (reqOther.method = (mkReq Method.POST "_method=PUT").method ∧
        reqOther.query = (mkReq Method.POST "_method=PUT").query) ∧
      override_method reqOther =
          override_method (mkReq Method.POST "_method=PUT") ∧
        observedMethod reqOther =
          observedMethod (mkReq Method.POST "_method=PUT") :=
  ⟨⟨by decide, by decide⟩,
    override_depends_only_on_method_and_query reqOther
      (mkReq Method.POST "_method=PUT") (by decide) (by decide)⟩
